import Mathlib

/-!
Verification of the simulated-annealing calibration engine of
`invest_heat_islands/invest/utils.py`.

Shallow embedding conventions:
* Python floats are modelled as exact rationals (`ℚ`) where the source
  arithmetic is rational, and as reals (`ℝ`) where it is transcendental
  (`np.exp` in `compute_accept_prob`).
* A Python function that may raise (`ValueError` from the cost function,
  `ZeroDivisionError` in `GetNeighbour.__call__`) is modelled as returning
  an `Option`, with `none` standing for a raised exception.
* The random draws consumed by the loop (`rn.uniform` inside the neighbour
  generator, `rn.random()` for the acceptance test) are modelled as explicit
  oracle parameters indexed by the iteration counter, so every theorem
  quantifies over all possible random streams.
-/

/-- The `compute_accept_prob` function of `utils.py` (lines 29-36): the
Metropolis acceptance probability.  `np.exp` is transcendental, so this one
definition lives over `ℝ`. -/
noncomputable def compute_accept_prob (cost cost_new T : ℝ)
    (rescaling_coeff : ℝ := 2) : ℝ :=
  if cost_new < cost then 1
  else Real.exp (-rescaling_coeff * (cost_new - cost) / T)

/-- The `compute_T` annealing schedule of `utils.py` (lines 39-40):
`max(0.01, min(1, 1 - fraction))`, over exact rationals. -/
def compute_T (fraction : ℚ) : ℚ :=
  max 0.01 (min 1 (1 - fraction))

/-- First loop of `GetNeighbour.__call__` (lines 49-51): multiply the
coordinate at index `k` by `(1 + draws k)`, where `draws k` is the
`rn.uniform(-s, s)` draw consumed for coordinate `k`. -/
def perturbCoords (draws : ℕ → ℚ) : ℕ → List ℚ → List ℚ
  | _, [] => []
  | k, x_k :: rest => x_k * (1 + draws k) :: perturbCoords draws (k + 1) rest

/-- Second loop of `GetNeighbour.__call__` (lines 53-54): divide the entries
at indices `k ∈ range(2, 5)` by `weight_sum`, leaving the others alone. -/
def divideWeights (weight_sum : ℚ) : ℕ → List ℚ → List ℚ
  | _, [] => []
  | k, v :: rest =>
    (if 2 ≤ k ∧ k < 5 then v / weight_sum else v) ::
      divideWeights weight_sum (k + 1) rest

/-- `GetNeighbour.__call__` of `utils.py` (lines 47-56).  Python raises
`IndexError` when `len(x) < 5` (the second loop writes indices 2..4) and
`ZeroDivisionError` when the post-perturbation trailing sum is exactly zero;
both exceptions are modelled as `none`. -/
def getNeighbour (draws : ℕ → ℚ) (x : List ℚ) : Option (List ℚ) :=
  let x_neighbour := perturbCoords draws 0 x
  let weight_sum := (x_neighbour.drop 2).sum
  if x.length < 5 ∨ weight_sum = 0 then none
  else some (divideWeights weight_sum 0 x_neighbour)

/-- The mutable loop state of `simulated_annealing` (lines 76-78):
current vector `x`, current `cost`, and the trajectory `states`/`costs`. -/
structure SAState where
  x : List ℚ
  cost : ℚ
  states : List (List ℚ)
  costs : List ℚ
  deriving DecidableEq

/-- One iteration of the `for i in range(1, num_iters + 1)` loop of
`simulated_annealing` (lines 79-106).  `cost_func` returns `none` where the
Python cost function raises `ValueError`; in that case the iteration is
skipped (`continue`) and the state is returned unchanged.  The acceptance
test `accept_prob_func(...) > rn.random()` is `rand i < accept_prob_func ...`. -/
def sa_step (cost_func : List ℚ → Option ℚ)
    (get_neighbour_func : ℕ → List ℚ → List ℚ)
    (accept_prob_func : ℚ → ℚ → ℚ → ℚ) (T_func : ℚ → ℚ) (rand : ℕ → ℚ)
    (num_iters : ℕ) (s : SAState) (i : ℕ) : SAState :=
  let fraction : ℚ := (i : ℚ) / (num_iters : ℚ)
  let T := T_func fraction
  let x_new := get_neighbour_func i s.x
  match cost_func x_new with
  | none => s
  | some cost_new =>
    if rand i < accept_prob_func s.cost cost_new T then
      { x := x_new, cost := cost_new,
        states := s.states ++ [x_new], costs := s.costs ++ [cost_new] }
    else s

/-- The `simulated_annealing` driver of `utils.py` (lines 59-108).  The
initial cost evaluation (line 77) is outside the `try`, so an initial
failure propagates (`none`).  The loop folds `sa_step` over the iteration
indices `1, ..., num_iters` and the trajectory `(states, costs)` is
returned. -/
def simulated_annealing (x0 : List ℚ) (cost_func : List ℚ → Option ℚ)
    (get_neighbour_func : ℕ → List ℚ → List ℚ)
    (accept_prob_func : ℚ → ℚ → ℚ → ℚ) (T_func : ℚ → ℚ) (rand : ℕ → ℚ)
    (num_iters : ℕ) : Option (List (List ℚ) × List ℚ) :=
  match cost_func x0 with
  | none => none
  | some cost =>
    let init : SAState := { x := x0, cost := cost, states := [x0], costs := [cost] }
    let final := (List.range' 1 num_iters).foldl
      (sa_step cost_func get_neighbour_func accept_prob_func T_func rand num_iters)
      init
    some (final.states, final.costs)

/-- If every candidate evaluation fails, every loop iteration leaves the
state untouched. -/
theorem sa_foldl_all_failures (cost_func : List ℚ → Option ℚ)
    (gnf : ℕ → List ℚ → List ℚ) (apf : ℚ → ℚ → ℚ → ℚ) (Tf : ℚ → ℚ)
    (rand : ℕ → ℚ) (N : ℕ)
    (hfail : ∀ i x, cost_func (gnf i x) = none) :
    ∀ (l : List ℕ) (s : SAState),
      l.foldl (sa_step cost_func gnf apf Tf rand N) s = s := by
  intro l
  induction l with
  | nil => intro s; rfl
  | cons i l ih =>
    intro s
    have hstep : sa_step cost_func gnf apf Tf rand N s i = s := by
      simp [sa_step, hfail i s.x]
    rw [List.foldl_cons, hstep, ih s]

/-- C1: an iteration whose candidate cost evaluation raises a `ValueError`
leaves the current state, current cost and the trajectory unchanged
(`sa_step` returns its input state verbatim), and the driver's iteration
list `range(1, num_iters + 1)` has exactly `num_iters` elements, so the
loop body executes at most `num_iters` times regardless of failures. -/
theorem sa_failed_iteration_skips (cost_func : List ℚ → Option ℚ)
    (gnf : ℕ → List ℚ → List ℚ) (apf : ℚ → ℚ → ℚ → ℚ) (Tf : ℚ → ℚ)
    (rand : ℕ → ℚ) (N : ℕ) (s : SAState) (i : ℕ)
    (hfail : cost_func (gnf i s.x) = none) :
    sa_step cost_func gnf apf Tf rand N s i = s ∧
      (List.range' 1 N).length = N := by
  constructor
  · simp [sa_step, hfail]
  · simp

/-- Witness for C1 at a concrete input: a constantly failing cost function,
iteration 1 of a 3-iteration run. -/
theorem sa_failed_iteration_skips_witness :
    (fun (_ : List ℚ) => (none : Option ℚ)) ((fun _ x => x) 1 (⟨[1], 0, [[1]], [0]⟩ : SAState).x) = none ∧
    (sa_step (fun _ => none) (fun _ x => x) (fun _ _ _ => 1) compute_T (fun _ => 0) 3
        ⟨[1], 0, [[1]], [0]⟩ 1 = ⟨[1], 0, [[1]], [0]⟩ ∧
      (List.range' 1 3).length = 3) :=
  ⟨rfl, sa_failed_iteration_skips (fun _ => none) (fun _ x => x) (fun _ _ _ => 1)
    compute_T (fun _ => 0) 3 ⟨[1], 0, [[1]], [0]⟩ 1 rfl⟩

/-- C2, as stated, is false: when the objective evaluator fails on *every*
call, the very first evaluation `cost = cost_func(x)` (line 77) is outside
the `try`, so the `ValueError` propagates and no trajectory is returned at
all (modelled as `none`), rather than a length-1 trajectory. -/
theorem sa_all_failures_aborts :
    simulated_annealing [500, 100, 3/5, 1/5, 1/5] (fun _ => none)
      (fun _ x => x) (fun _ _ _ => 1) compute_T (fun _ => 0) 100 = none := rfl

/-- C2 (amended): if the initial evaluation succeeds and every evaluation of
a generated candidate fails, the driver returns the length-1 trajectory
holding only the initial state and its cost, for every `num_iters`. -/
theorem sa_loop_failures_keep_initial_trajectory (x0 : List ℚ) (c0 : ℚ)
    (cost_func : List ℚ → Option ℚ) (gnf : ℕ → List ℚ → List ℚ)
    (apf : ℚ → ℚ → ℚ → ℚ) (Tf : ℚ → ℚ) (rand : ℕ → ℚ) (N : ℕ)
    (h0 : cost_func x0 = some c0)
    (hfail : ∀ i x, cost_func (gnf i x) = none) :
    simulated_annealing x0 cost_func gnf apf Tf rand N = some ([x0], [c0]) := by
  have hfold := sa_foldl_all_failures cost_func gnf apf Tf rand N hfail
    (List.range' 1 N) ⟨x0, c0, [x0], [c0]⟩
  calc simulated_annealing x0 cost_func gnf apf Tf rand N
      = some (((List.range' 1 N).foldl
            (sa_step cost_func gnf apf Tf rand N) ⟨x0, c0, [x0], [c0]⟩).states,
          ((List.range' 1 N).foldl
            (sa_step cost_func gnf apf Tf rand N) ⟨x0, c0, [x0], [c0]⟩).costs) := by
        unfold simulated_annealing
        rw [h0]
    _ = some ([x0], [c0]) := by rw [hfold]

/-- Witness for the amended C2: the evaluator succeeds only on the initial
vector `[1]`, every neighbour has a `2` consed in front and fails. -/
theorem sa_loop_failures_keep_initial_trajectory_witness :
    (fun (x : List ℚ) => if x = [1] then some (5 : ℚ) else none) [1] = some 5 ∧
    (∀ (i : ℕ) (x : List ℚ),
      (fun (x : List ℚ) => if x = [1] then some (5 : ℚ) else none)
        ((fun _ x => (2 : ℚ) :: x) i x) = none) ∧
    simulated_annealing [1]
      (fun x => if x = [1] then some (5 : ℚ) else none)
      (fun _ x => (2 : ℚ) :: x) (fun _ _ _ => 1) compute_T (fun _ => 0) 4 =
      some ([[1]], [5]) :=
  ⟨rfl, fun _ x => if_neg (by simp),
    sa_loop_failures_keep_initial_trajectory [1] 5
      (fun x => if x = [1] then some (5 : ℚ) else none)
      (fun _ x => (2 : ℚ) :: x) (fun _ _ _ => 1) compute_T (fun _ => 0) 4
      rfl (fun _ x => if_neg (by simp))⟩

/-- C7: with `num_iters = 0` the iteration range `range(1, 1)` is empty and
the driver returns exactly the initial state paired with its evaluated cost,
whenever the initial evaluation succeeds. -/
theorem sa_zero_iters (x0 : List ℚ) (c0 : ℚ) (cost_func : List ℚ → Option ℚ)
    (gnf : ℕ → List ℚ → List ℚ) (apf : ℚ → ℚ → ℚ → ℚ) (Tf : ℚ → ℚ)
    (rand : ℕ → ℚ) (h : cost_func x0 = some c0) :
    simulated_annealing x0 cost_func gnf apf Tf rand 0 = some ([x0], [c0]) := by
  unfold simulated_annealing
  rw [h]
  rfl

/-- Witness for C7 at a concrete input. -/
theorem sa_zero_iters_witness :
    (fun (_ : List ℚ) => some (7 : ℚ)) [2] = some 7 ∧
    simulated_annealing [2] (fun _ => some (7 : ℚ)) (fun _ x => x)
      (fun _ _ _ => 1) compute_T (fun _ => 0) 0 = some ([[2]], [7]) :=
  ⟨rfl, sa_zero_iters [2] 7 (fun _ => some 7) (fun _ x => x) (fun _ _ _ => 1)
    compute_T (fun _ => 0) rfl⟩

/-- C4: whenever the candidate cost is strictly lower, `compute_accept_prob`
takes the first branch and returns exactly 1, for any temperature and any
rescaling coefficient. -/
theorem accept_prob_improvement (cost cost_new T rescale : ℝ)
    (h : cost_new < cost) (hT : 0 < T) :
    compute_accept_prob cost cost_new T rescale = 1 := by
  unfold compute_accept_prob
  rw [if_pos h]

/-- Witness for C4 at `cost = 1`, `cost_new = 0`, `T = 1`, `rescale = 5`. -/
theorem accept_prob_improvement_witness :
    ((0 : ℝ) < 1 ∧ (0 : ℝ) < 1) ∧ compute_accept_prob 1 0 1 5 = 1 :=
  ⟨⟨one_pos, one_pos⟩, accept_prob_improvement 1 0 1 5 one_pos one_pos⟩

/-- C5: for `cost_new ≥ cost`, `T > 0` and `rescale > 0` the acceptance
probability is `exp (-rescale * (cost_new - cost) / T)`, lies strictly in
`(0, 1]`, and (for a strictly positive cost gap) tends to 0 as `T → 0⁺`. -/
theorem accept_prob_metropolis (cost cost_new T rescale : ℝ)
    (hge : cost ≤ cost_new) (hT : 0 < T) (hr : 0 < rescale) :
    compute_accept_prob cost cost_new T rescale
        = Real.exp (-rescale * (cost_new - cost) / T) ∧
      0 < compute_accept_prob cost cost_new T rescale ∧
      compute_accept_prob cost cost_new T rescale ≤ 1 ∧
      (cost < cost_new →
        Filter.Tendsto (fun t => compute_accept_prob cost cost_new t rescale)
          (nhdsWithin 0 (Set.Ioi 0)) (nhds 0)) := by
  have heq : ∀ t : ℝ, compute_accept_prob cost cost_new t rescale
      = Real.exp (-rescale * (cost_new - cost) / t) := by
    intro t
    unfold compute_accept_prob
    rw [if_neg (not_lt.mpr hge)]
  refine ⟨heq T, ?_, ?_, ?_⟩
  · rw [heq T]; exact Real.exp_pos _
  · rw [heq T]
    rw [Real.exp_le_one_iff]
    rw [div_nonpos_iff]
    right
    constructor
    · nlinarith [sub_nonneg.mpr hge]
    · exact hT.le
  · intro hlt
    have hc : -rescale * (cost_new - cost) < 0 := by nlinarith [sub_pos.mpr hlt]
    have h1 : Filter.Tendsto (fun t : ℝ => t⁻¹)
        (nhdsWithin 0 (Set.Ioi 0)) Filter.atTop := tendsto_inv_zero_atTop
    have h2 : Filter.Tendsto (fun t : ℝ => -rescale * (cost_new - cost) * t⁻¹)
        (nhdsWithin 0 (Set.Ioi 0)) Filter.atBot :=
      Filter.Tendsto.const_mul_atTop_of_neg hc h1
    have h3 := Real.tendsto_exp_atBot.comp h2
    refine h3.congr fun t => ?_
    show Real.exp (-rescale * (cost_new - cost) * t⁻¹) = _
    rw [heq t, div_eq_mul_inv]

/-- Witness for C5 at `cost = 0`, `cost_new = 1`, `T = 1`, `rescale = 2`. -/
theorem accept_prob_metropolis_witness :
    ((0 : ℝ) ≤ 1 ∧ (0 : ℝ) < 1 ∧ (0 : ℝ) < 2) ∧
    (compute_accept_prob 0 1 1 2 = Real.exp (-2 * (1 - 0) / 1) ∧
      0 < compute_accept_prob 0 1 1 2 ∧
      compute_accept_prob 0 1 1 2 ≤ 1 ∧
      ((0 : ℝ) < 1 →
        Filter.Tendsto (fun t => compute_accept_prob 0 1 t 2)
          (nhdsWithin 0 (Set.Ioi 0)) (nhds 0))) :=
  ⟨⟨zero_le_one, one_pos, two_pos⟩,
    accept_prob_metropolis 0 1 1 2 zero_le_one one_pos two_pos⟩

/-- Modelled from the spec: the reference behaviour `clamp(1 - fraction,
0.01, 1)`, i.e. `clamp(x, lo, hi) = max lo (min hi x)`, stated for
comparison with the source's `compute_T`. -/
def clampSpec (x lo hi : ℚ) : ℚ :=
  max lo (min hi x)

/-- C6: the schedule equals `clamp(1 - fraction, 0.01, 1)`, its output is
always within `[0.01, 1]` (in particular on `[0, 1]`), and it is
monotonically non-increasing. -/
theorem compute_T_clamped_monotone (f f1 f2 : ℚ)
    (hf0 : 0 ≤ f) (hf1 : f ≤ 1) (h12 : f1 ≤ f2) :
    compute_T f = clampSpec (1 - f) 0.01 1 ∧
      0.01 ≤ compute_T f ∧ compute_T f ≤ 1 ∧
      compute_T f2 ≤ compute_T f1 := by
  refine ⟨rfl, le_max_left _ _, ?_, ?_⟩
  · exact max_le (by norm_num) (min_le_left _ _)
  · exact max_le_max le_rfl (min_le_min le_rfl (by linarith))

/-- Witness for C6 at `f = 1/2`, `f1 = 0`, `f2 = 1`. -/
theorem compute_T_clamped_monotone_witness :
    ((0 : ℚ) ≤ 1/2 ∧ (1/2 : ℚ) ≤ 1 ∧ (0 : ℚ) ≤ 1) ∧
    (compute_T (1/2) = clampSpec (1 - 1/2) 0.01 1 ∧
      0.01 ≤ compute_T (1/2) ∧ compute_T (1/2) ≤ 1 ∧
      compute_T 1 ≤ compute_T 0) :=
  ⟨⟨by norm_num, by norm_num, by norm_num⟩,
    compute_T_clamped_monotone (1/2) 0 1 (by norm_num) (by norm_num) (by norm_num)⟩

/-- C3: whenever the neighbour generator returns a vector for a 5-coordinate
input (i.e. no exception is raised), the last 3 coordinates of the result
sum to exactly 1: each is the corresponding perturbed coordinate divided by
the sum of the three perturbed trailing coordinates. -/
theorem getNeighbour_simplex (draws : ℕ → ℚ) (x out : List ℚ)
    (hx : x.length = 5) (hsome : getNeighbour draws x = some out) :
    (out.drop 2).sum = 1 := by
  rcases x with _ | ⟨a, x⟩; · simp at hx
  rcases x with _ | ⟨b, x⟩; · simp at hx
  rcases x with _ | ⟨c, x⟩; · simp at hx
  rcases x with _ | ⟨d, x⟩; · simp at hx
  rcases x with _ | ⟨e, x⟩; · simp at hx
  rcases x with _ | ⟨f, x⟩
  swap
  · simp at hx
  simp only [getNeighbour, perturbCoords, List.drop, List.sum_cons,
    List.sum_nil, List.length_cons, List.length_nil] at hsome
  split at hsome
  · exact absurd hsome (by simp)
  · rename_i hcond
    have hw : c * (1 + draws 2) + (d * (1 + draws 3) + (e * (1 + draws 4) + 0)) ≠ 0 := by
      intro h0
      exact hcond (Or.inr h0)
    rw [Option.some.injEq] at hsome
    subst hsome
    simp only [divideWeights, List.drop, List.sum_cons, List.sum_nil]
    norm_num
    rw [div_add_div_same, div_add_div_same]
    exact div_self (by simpa using hw)

/-- Witness for C3: zero draws on the default parameter vector. -/
theorem getNeighbour_simplex_witness :
    ([(500 : ℚ), 100, 3/5, 1/5, 1/5].length = 5) ∧
    getNeighbour (fun _ => 0) [500, 100, 3/5, 1/5, 1/5]
      = some [500, 100, 3/5, 1/5, 1/5] ∧
    (([(500 : ℚ), 100, 3/5, 1/5, 1/5]).drop 2).sum = 1 :=
  ⟨by decide, by norm_num [getNeighbour, perturbCoords, divideWeights],
    getNeighbour_simplex (fun _ => 0) [500, 100, 3/5, 1/5, 1/5]
      [500, 100, 3/5, 1/5, 1/5] (by decide)
      (by norm_num [getNeighbour, perturbCoords, divideWeights])⟩

/-- `ModelWrapper.__init__` line 218: the validity mask `~np.isnan(obs_arr)`
over the flattened station-date observations; a missing (`NaN`) reading is
modelled as `none`. -/
def obsMask (obs : List (Option ℚ)) : List Bool :=
  obs.map Option.isSome

/-- `ModelWrapper.__init__` line 219: `obs_arr[obs_mask]`, the valid
observations kept in order. -/
def obsArr (obs : List (Option ℚ)) : List ℚ :=
  obs.filterMap id

/-- NumPy boolean-mask indexing `arr[mask]`: keep the entries of `arr`
whose mask position is `True`. -/
def maskFilter (mask : List Bool) (arr : List ℚ) : List ℚ :=
  ((arr.zip mask).filter (fun p => p.2)).map Prod.fst

/-- `sklearn.metrics.mean_squared_error`: the mean of the squared
differences, averaged over the number of samples. -/
def mean_squared_error (y_true y_pred : List ℚ) : ℚ :=
  (List.zipWith (fun a b => (a - b) ^ 2) y_true y_pred).sum / y_true.length

/-- The aggregation step of `ModelWrapper._params_to_rmse` (lines 319-320):
`mean_squared_error(self.obs_arr, np.hstack(preds)[self.obs_mask])`, with
`obs_arr` and `obs_mask` fixed from the observations at construction. -/
def params_to_rmse_core (obs : List (Option ℚ)) (preds : List ℚ) : ℚ :=
  mean_squared_error (obsArr obs) (maskFilter (obsMask obs) preds)

/-- Modelled from the spec: the station-date pairs that carry a valid
observation, each paired with its prediction. -/
def validPairs (obs : List (Option ℚ)) (preds : List ℚ) : List (ℚ × ℚ) :=
  (obs.zip preds).filterMap (fun op => op.1.map (fun v => (v, op.2)))

/-- Modelled from the spec: mean squared error computed only over the valid
station-date pairs, excluding missing pairs from both the numerator and
the averaging count. -/
def mse_valid_only (obs : List (Option ℚ)) (preds : List ℚ) : ℚ :=
  ((validPairs obs preds).map (fun p => (p.1 - p.2) ^ 2)).sum /
    (validPairs obs preds).length

/-- The masked observation and prediction lists line up exactly with the
valid station-date pairs. -/
theorem mask_align (obs : List (Option ℚ)) : ∀ (preds : List ℚ),
    obs.length = preds.length →
    obsArr obs = (validPairs obs preds).map Prod.fst ∧
    maskFilter (obsMask obs) preds = (validPairs obs preds).map Prod.snd := by
  induction obs with
  | nil =>
    intro preds h
    have hp : preds = [] := List.length_eq_zero.mp h.symm
    subst hp
    exact ⟨rfl, rfl⟩
  | cons o t ih =>
    intro preds h
    cases preds with
    | nil => simp at h
    | cons p ps =>
      have h' : t.length = ps.length := by simpa using h
      obtain ⟨ih1, ih2⟩ := ih ps h'
      cases o with
      | none =>
        refine ⟨?_, ?_⟩
        · simpa [obsArr, validPairs] using ih1
        · simpa [maskFilter, obsMask, validPairs] using ih2
      | some v =>
        refine ⟨?_, ?_⟩
        · simpa [obsArr, validPairs] using ih1
        · simpa [maskFilter, obsMask, validPairs] using ih2

/-- Squared differences of the two projections of a pair list. -/
theorem zipWith_sq_map (l : List (ℚ × ℚ)) :
    List.zipWith (fun a b => (a - b) ^ 2) (l.map Prod.fst) (l.map Prod.snd)
      = l.map (fun p => (p.1 - p.2) ^ 2) := by
  induction l with
  | nil => rfl
  | cons a t ih => simp [ih]

/-- The number of valid observations is the number of non-missing entries. -/
theorem obsArr_length (obs : List (Option ℚ)) :
    (obsArr obs).length = obs.countP (fun o => o.isSome) := by
  induction obs with
  | nil => rfl
  | cons o t ih =>
    cases o <;> simp [obsArr, List.countP_cons] <;> simpa [obsArr] using ih

/-- C8: with the validity mask built from the observations, the session's
cost is the mean squared error over the valid station-date pairs only: each
missing pair is excluded from the numerator and from the averaging count
(which equals the number of non-missing observations). -/
theorem params_to_rmse_masked_mse (obs : List (Option ℚ)) (preds : List ℚ)
    (h : obs.length = preds.length) :
    params_to_rmse_core obs preds = mse_valid_only obs preds ∧
      (validPairs obs preds).length = obs.countP (fun o => o.isSome) := by
  obtain ⟨h1, h2⟩ := mask_align obs preds h
  constructor
  · unfold params_to_rmse_core mean_squared_error mse_valid_only
    rw [h1, h2, zipWith_sq_map, List.length_map]
  · have hlen := congrArg List.length h1
    rw [List.length_map] at hlen
    rw [← hlen, obsArr_length]

/-- Witness for C8: one missing reading among three; the cost averages the
two valid pairs only, `((1-1)^2 + (3-5)^2) / 2 = 2`. -/
theorem params_to_rmse_masked_mse_witness :
    ([some 1, none, some 3] : List (Option ℚ)).length = [(1 : ℚ), 9, 5].length ∧
    (params_to_rmse_core [some 1, none, some 3] [1, 9, 5]
        = mse_valid_only [some 1, none, some 3] [1, 9, 5] ∧
      (validPairs [some 1, none, some 3] [(1 : ℚ), 9, 5]).length
        = ([some 1, none, some 3] : List (Option ℚ)).countP (fun o => o.isSome)) :=
  ⟨rfl, params_to_rmse_masked_mse [some 1, none, some 3] [1, 9, 5] rfl⟩

/-- A value stored in the session's `base_args` dictionary: the five
calibration parameters are numbers, the remaining entries are file paths
(strings) or flags. -/
inductive ArgVal where
  | num (q : ℚ)
  | str (s : String)
  | flag (b : Bool)
  deriving DecidableEq

/-- The `DEFAULT_MODEL_PARAMS` dictionary of `utils.py` (lines 18-24), as an
insertion-ordered association list (Python dicts preserve insertion order,
and both `calibrate`'s default `x0` and its final update iterate it in that
order). -/
def DEFAULT_MODEL_PARAMS : List (String × ℚ) :=
  [("t_air_average_radius", 500),
   ("green_area_cooling_distance", 100),
   ("cc_weight_shade", 0.6),
   ("cc_weight_albedo", 0.2),
   ("cc_weight_eti", 0.2)]

/-- The five calibration-parameter keys, in `DEFAULT_MODEL_PARAMS` order. -/
def paramKeys : List String :=
  DEFAULT_MODEL_PARAMS.map Prod.fst

/-- Numeric content of an `ArgVal` (the parameter entries of `base_args` are
always numeric when read back for the default `x0`). -/
def argValNum : ArgVal → ℚ
  | ArgVal.num q => q
  | _ => 0

/-- `self.base_args.update({param_key: x_param for param_key, x_param in
zip(DEFAULT_MODEL_PARAMS, x_opt)})` of `calibrate` (lines 342-345): the keys
zipped with `x_opt` are overwritten, every other key keeps its value. -/
def updateParams (args : String → ArgVal) (x_opt : List ℚ) : String → ArgVal :=
  fun key =>
    match List.lookup key (paramKeys.zip x_opt) with
    | some v => ArgVal.num v
    | none => args key

/-- `np.argmin` over a list: index of the first occurrence of the minimum
(0 on an empty list). -/
def argmin : List ℚ → ℕ
  | [] => 0
  | c :: rest =>
    if rest = [] then 0
    else if rest.getD (argmin rest) 0 < c then argmin rest + 1 else 0

/-- The session state of `ModelWrapper` that `calibrate` can reach: the
`base_args` mapping plus the calibration-relevant fixed fields set in
`__init__` (observation array, validity mask, station pixel coordinates,
per-date reference-evapotranspiration raster mapping). -/
structure ModelWrapperState where
  base_args : String → ArgVal
  obs_arr : List ℚ
  obs_mask : List Bool
  station_rows : List ℤ
  station_cols : List ℤ
  ref_et_filepath_dict : List (ℕ × String)

/-- The `x0` default of `calibrate` (lines 328-331): when no initial vector
is given, read the five parameter values from the current `base_args` in
`DEFAULT_MODEL_PARAMS` key order. -/
def calibrate_x0 (mw : ModelWrapperState) (x0 : Option (List ℚ)) : List ℚ :=
  match x0 with
  | some v => v
  | none => DEFAULT_MODEL_PARAMS.map (fun p => argValNum (mw.base_args p.1))

/-- `ModelWrapper.calibrate` (lines 322-347).  The objective evaluator
`self._params_to_rmse` runs the external InVEST model, so it enters as the
oracle `cost_func`; `GetNeighbour(stepsize)` with its uniform draws enters
as `get_neighbour_func`; `compute_accept_prob` with the `accept_coeff`
argument is transcendental and enters as `accept_prob_func`.  The annealing
schedule is the concrete default `compute_T`.  On success the session's
`base_args` is overwritten at the parameter keys with
`states[np.argmin(rmses)]`, and the trajectory is returned unchanged. -/
def calibrate (mw : ModelWrapperState) (cost_func : List ℚ → Option ℚ)
    (get_neighbour_func : ℕ → List ℚ → List ℚ)
    (accept_prob_func : ℚ → ℚ → ℚ → ℚ) (rand : ℕ → ℚ)
    (x0 : Option (List ℚ)) (num_iters : ℕ) :
    Option (ModelWrapperState × List (List ℚ) × List ℚ) :=
  match simulated_annealing (calibrate_x0 mw x0) cost_func get_neighbour_func
      accept_prob_func compute_T rand num_iters with
  | none => none
  | some (states, rmses) =>
    let x_opt := states.getD (argmin rmses) []
    some ({ mw with base_args := updateParams mw.base_args x_opt },
      states, rmses)

/-- `argmin` returns a valid index on a nonempty list. -/
theorem argmin_lt_length : ∀ (l : List ℚ), l ≠ [] → argmin l < l.length := by
  intro l
  induction l with
  | nil => intro h; exact absurd rfl h
  | cons c rest ih =>
    intro _
    by_cases hr : rest = []
    · subst hr; simp [argmin]
    · simp only [argmin, if_neg hr, List.length_cons]
      split
      · have := ih hr; omega
      · omega

/-- The entry at `argmin l` is a minimum of `l`. -/
theorem argmin_le (l : List ℚ) : ∀ (j : ℕ), j < l.length →
    l.getD (argmin l) 0 ≤ l.getD j 0 := by
  induction l with
  | nil => intro j hj; simp at hj
  | cons c rest ih =>
    intro j hj
    by_cases hr : rest = []
    · subst hr
      obtain rfl : j = 0 := by simpa using hj
      simp [argmin]
    · simp only [argmin, if_neg hr]
      by_cases hlt : rest.getD (argmin rest) 0 < c
      · rw [if_pos hlt, List.getD_cons_succ]
        cases j with
        | zero => rw [List.getD_cons_zero]; exact hlt.le
        | succ j' =>
          rw [List.getD_cons_succ]
          exact ih j' (by simpa using hj)
      · rw [if_neg hlt, List.getD_cons_zero]
        push_neg at hlt
        cases j with
        | zero => rw [List.getD_cons_zero]
        | succ j' =>
          rw [List.getD_cons_succ]
          exact hlt.trans (ih j' (by simpa using hj))

/-- A key outside `keys` is never found in `keys.zip xs`. -/
theorem lookup_zip_not_mem (key : String) : ∀ (keys : List String) (xs : List ℚ),
    key ∉ keys → List.lookup key (keys.zip xs) = none := by
  intro keys
  induction keys with
  | nil => intro xs _; rfl
  | cons k ks ih =>
    intro xs h
    cases xs with
    | nil => rfl
    | cons x xs =>
      have hne : key ≠ k := fun heq => h (heq ▸ List.mem_cons_self k ks)
      have hbeq : (key == k) = false := beq_eq_false_iff_ne.mpr hne
      simp only [List.zip_cons_cons, List.lookup, hbeq]
      exact ih xs (fun hm => h (List.mem_cons_of_mem k hm))

/-- C9: a completed `calibrate` call returns the annealing trajectory
unchanged, and overwrites the session's parameter entries with the state at
`np.argmin(rmses)`, which carries a cost no larger than any recorded cost
(post-hoc scan, not the last accepted state). -/
theorem calibrate_updates_to_min (mw : ModelWrapperState)
    (cf : List ℚ → Option ℚ) (gnf : ℕ → List ℚ → List ℚ)
    (apf : ℚ → ℚ → ℚ → ℚ) (rand : ℕ → ℚ) (x0 : Option (List ℚ)) (N : ℕ)
    (mw' : ModelWrapperState) (states : List (List ℚ)) (rmses : List ℚ)
    (h : calibrate mw cf gnf apf rand x0 N = some (mw', states, rmses)) :
    simulated_annealing (calibrate_x0 mw x0) cf gnf apf compute_T rand N
        = some (states, rmses) ∧
      mw'.base_args = updateParams mw.base_args (states.getD (argmin rmses) []) ∧
      ∀ j, j < rmses.length → rmses.getD (argmin rmses) 0 ≤ rmses.getD j 0 := by
  unfold calibrate at h
  cases hsa : simulated_annealing (calibrate_x0 mw x0) cf gnf apf compute_T rand N with
  | none => rw [hsa] at h; exact absurd h (by simp)
  | some tr =>
    obtain ⟨states', rmses'⟩ := tr
    rw [hsa] at h
    simp only [Option.some.injEq, Prod.mk.injEq] at h
    obtain ⟨hmw, hst, hrm⟩ := h
    refine ⟨by rw [hst, hrm], ?_, ?_⟩
    · rw [← hmw, ← hst, ← hrm]
    · intro j hj
      exact argmin_le rmses j hj

/-- C10: a completed `calibrate` call changes at most the five
calibration-parameter keys of `base_args`; every other key, and the
session's observation array, validity mask, station pixel coordinates and
per-date raster mapping, are unchanged. -/
theorem calibrate_frame (mw : ModelWrapperState)
    (cf : List ℚ → Option ℚ) (gnf : ℕ → List ℚ → List ℚ)
    (apf : ℚ → ℚ → ℚ → ℚ) (rand : ℕ → ℚ) (x0 : Option (List ℚ)) (N : ℕ)
    (mw' : ModelWrapperState) (states : List (List ℚ)) (rmses : List ℚ)
    (h : calibrate mw cf gnf apf rand x0 N = some (mw', states, rmses)) :
    (∀ key, key ∉ paramKeys → mw'.base_args key = mw.base_args key) ∧
      mw'.obs_arr = mw.obs_arr ∧ mw'.obs_mask = mw.obs_mask ∧
      mw'.station_rows = mw.station_rows ∧
      mw'.station_cols = mw.station_cols ∧
      mw'.ref_et_filepath_dict = mw.ref_et_filepath_dict := by
  unfold calibrate at h
  cases hsa : simulated_annealing (calibrate_x0 mw x0) cf gnf apf compute_T rand N with
  | none => rw [hsa] at h; exact absurd h (by simp)
  | some tr =>
    obtain ⟨states', rmses'⟩ := tr
    rw [hsa] at h
    simp only [Option.some.injEq, Prod.mk.injEq] at h
    obtain ⟨hmw, hst, hrm⟩ := h
    refine ⟨?_, ?_, ?_, ?_, ?_, ?_⟩ <;> rw [← hmw]
    · intro key hkey
      show updateParams mw.base_args _ key = mw.base_args key
      unfold updateParams
      rw [lookup_zip_not_mem key paramKeys _ hkey]

/-- A minimal concrete session state used by the `calibrate` witnesses. -/
def mwC : ModelWrapperState :=
  { base_args := fun _ => ArgVal.num 0
    obs_arr := []
    obs_mask := []
    station_rows := []
    station_cols := []
    ref_et_filepath_dict := [] }

/-- Witness for C9: one rejected iteration, trajectory `([x0], [3])`. -/
theorem calibrate_updates_to_min_witness :
    calibrate mwC (fun _ => some 3) (fun _ x => x) (fun _ _ _ => 0) (fun _ => 1)
        (some [1, 2, 3, 4, 5]) 1
      = some ({ mwC with base_args := updateParams mwC.base_args [1, 2, 3, 4, 5] },
          [[1, 2, 3, 4, 5]], [3]) ∧
    (simulated_annealing (calibrate_x0 mwC (some [1, 2, 3, 4, 5]))
          (fun _ => some 3) (fun _ x => x) (fun _ _ _ => 0) compute_T (fun _ => 1) 1
        = some ([[1, 2, 3, 4, 5]], [3]) ∧
      ({ mwC with base_args := updateParams mwC.base_args [1, 2, 3, 4, 5] }).base_args
        = updateParams mwC.base_args ([[1, 2, 3, 4, 5]].getD (argmin [3]) []) ∧
      ∀ j, j < ([3] : List ℚ).length →
        ([3] : List ℚ).getD (argmin [3]) 0 ≤ ([3] : List ℚ).getD j 0) :=
  ⟨rfl, calibrate_updates_to_min mwC (fun _ => some 3) (fun _ x => x)
    (fun _ _ _ => 0) (fun _ => 1) (some [1, 2, 3, 4, 5]) 1
    { mwC with base_args := updateParams mwC.base_args [1, 2, 3, 4, 5] }
    [[1, 2, 3, 4, 5]] [3] rfl⟩

/-- Witness for C10: a zero-iteration calibration leaves everything but the
parameter keys unchanged. -/
theorem calibrate_frame_witness :
    calibrate mwC (fun _ => some 4) (fun _ x => x) (fun _ _ _ => 0) (fun _ => 1)
        (some [5, 4, 3, 2, 1]) 0
      = some ({ mwC with base_args := updateParams mwC.base_args [5, 4, 3, 2, 1] },
          [[5, 4, 3, 2, 1]], [4]) ∧
    ((∀ key, key ∉ paramKeys →
        ({ mwC with base_args := updateParams mwC.base_args [5, 4, 3, 2, 1] }).base_args key
          = mwC.base_args key) ∧
      ({ mwC with base_args := updateParams mwC.base_args [5, 4, 3, 2, 1] }).obs_arr = mwC.obs_arr ∧
      ({ mwC with base_args := updateParams mwC.base_args [5, 4, 3, 2, 1] }).obs_mask = mwC.obs_mask ∧
      ({ mwC with base_args := updateParams mwC.base_args [5, 4, 3, 2, 1] }).station_rows = mwC.station_rows ∧
      ({ mwC with base_args := updateParams mwC.base_args [5, 4, 3, 2, 1] }).station_cols = mwC.station_cols ∧
      ({ mwC with base_args := updateParams mwC.base_args [5, 4, 3, 2, 1] }).ref_et_filepath_dict = mwC.ref_et_filepath_dict) :=
  ⟨rfl, calibrate_frame mwC (fun _ => some 4) (fun _ x => x)
    (fun _ _ _ => 0) (fun _ => 1) (some [5, 4, 3, 2, 1]) 0
    { mwC with base_args := updateParams mwC.base_args [5, 4, 3, 2, 1] }
    [[5, 4, 3, 2, 1]] [4] rfl⟩
